import Mathlib

/-!
Shallow embedding of the resilient HTTP client of `reen-mcp-server`
(`src/dist/client.js`, startup configuration from `src/src/index.ts`).

The network is modelled as a function `net : Nat → DispatchOutcome α` giving,
for each attempt index, either a thrown error message (the network layer
throwing) or a response object (status, status text, the result of
`res.text()` — `none` models a rejected text read — and the JSON-decoded
body `res.json()`, which is assumed to decode successfully).  A call to
`ReenClient.request` produces a `Trace`: the number of dispatched attempts,
the sleeps performed, the messages passed to `log`, the URL / Authorization
header / payload of each dispatch, whether the post-loop fallback `throw`
was reached, and the final result (returned value or raised error message).
-/

namespace Reen

/-- `const DEFAULT_BASE_URL = "https://backend.reen.tech"` (client.js line 5). -/
def DEFAULT_BASE_URL : String := "https://backend.reen.tech"

/-- `const MAX_RETRIES = 3` (client.js line 6). -/
def MAX_RETRIES : Nat := 3

/-- `const INITIAL_BACKOFF_MS = 1000` (client.js line 7). -/
def INITIAL_BACKOFF_MS : Nat := 1000

/-- A fetch `Response` as observed by `request`: status code, status text,
the result of `await res.text()` (`none` = the read rejected, which the code
turns into `""` via `.catch(() => "")`), and the JSON-decoded body. -/
structure FetchResponse (α : Type) where
  status : Nat
  statusText : String
  textResult : Option String
  body : α
  deriving DecidableEq

/-- `res.ok` of the Fetch API: status in the range 200–299. -/
def FetchResponse.ok {α : Type} (r : FetchResponse α) : Bool :=
  decide (200 ≤ r.status ∧ r.status < 300)

/-- Outcome of one `fetch` dispatch: either the promise rejects with an error
message, or a response object is produced. -/
inductive DispatchOutcome (α : Type) where
  | throws (msg : String)
  | responds (r : FetchResponse α)
  deriving DecidableEq

/-- JSON values, the possible `body` arguments of `request`
(numbers modelled as integers; floating point is irrelevant to the claims). -/
inductive JsonVal where
  | null : JsonVal
  | bool : Bool → JsonVal
  | num : Int → JsonVal
  | str : String → JsonVal
  | arr : List JsonVal → JsonVal
  | obj : List (String × JsonVal) → JsonVal

/-- JavaScript truthiness of a JSON value (`undefined` handled by `Option`
at use sites): `null`, `false`, `0` and `""` are falsy, everything else truthy. -/
def JsonVal.truthy : JsonVal → Bool
  | .null => false
  | .bool b => b
  | .num n => decide (n ≠ 0)
  | .str s => decide (s ≠ "")
  | .arr _ => true
  | .obj _ => true

/-- Minimal JSON string quoting, standing in for the platform `JSON.stringify`
treatment of strings (escapes backslash, quote and newline). -/
def jsonQuoteChar (c : Char) : String :=
  if c = '"' then "\\\"" else if c = '\\' then "\\\\" else if c = '\n' then "\\n"
  else String.mk [c]

/-- Quote a string as a JSON string literal. -/
def jsonQuote (s : String) : String :=
  "\"" ++ String.join (s.data.map jsonQuoteChar) ++ "\""

mutual

/-- Model of the platform `JSON.stringify` on `JsonVal`. -/
def jsonStringify : JsonVal → String
  | .null => "null"
  | .bool b => if b then "true" else "false"
  | .num n => toString n
  | .str s => jsonQuote s
  | .arr xs => "[" ++ jsonStringifyElems xs ++ "]"
  | .obj fs => "\x7b" ++ jsonStringifyFields fs ++ "\x7d"

/-- Comma-joined serialization of array elements. -/
def jsonStringifyElems : List JsonVal → String
  | [] => ""
  | [v] => jsonStringify v
  | v :: vs => jsonStringify v ++ "," ++ jsonStringifyElems vs

/-- Comma-joined serialization of object fields. -/
def jsonStringifyFields : List (String × JsonVal) → String
  | [] => ""
  | [(k, v)] => jsonQuote k ++ ":" ++ jsonStringify v
  | (k, v) :: fs => jsonQuote k ++ ":" ++ jsonStringify v ++ "," ++ jsonStringifyFields fs

end

/-- The payload handed to `fetch`: `body ? JSON.stringify(body) : undefined`
(client.js line 34).  `none` on the outside means the `body` parameter was
omitted (`undefined`); note that a present but *falsy* body also yields no
payload, because of JavaScript truthiness of the `body ?` test. -/
def sentPayload : Option JsonVal → Option String
  | none => none
  | some v => if v.truthy then some (jsonStringify v) else none

/-- `pat.isPrefixOf`-based model of JavaScript `String.prototype.includes`
on character lists. -/
def listContains (pat : List Char) : List Char → Bool
  | [] => pat.isPrefixOf []
  | c :: cs => pat.isPrefixOf (c :: cs) || listContains pat cs

/-- `s.includes(pat)` on Lean strings. -/
def strIncludes (s pat : String) : Bool :=
  listContains pat.data s.data

/-- `msg.toLowerCase()`. -/
def lowerStr (s : String) : String :=
  String.mk (s.data.map Char.toLower)

/-- `isRetryable` (client.js lines 75–83): substring checks on the lowercased
error message. -/
def isRetryable (msg : String) : Bool :=
  let m := lowerStr msg
  strIncludes m "econnreset" || strIncludes m "econnrefused" ||
  strIncludes m "etimedout" || strIncludes m "fetch failed" ||
  strIncludes m "http 429" || strIncludes m "http 5"

/-- The error text recorded at a 429/5xx response before a retry:
`new Error(`HTTP ${res.status}: ${res.statusText}`)` (client.js line 38). -/
def retryErrText {α : Type} (r : FetchResponse α) : String :=
  "HTTP " ++ toString r.status ++ ": " ++ r.statusText

/-- The error thrown for a non-ok response (client.js lines 43–44):
`HTTP ${res.status}: ${text || res.statusText}` where `text` is
`await res.text().catch(() => "")`. -/
def statusErrText {α : Type} (r : FetchResponse α) : String :=
  let text := r.textResult.getD ""
  "HTTP " ++ toString r.status ++ ": " ++ (if text = "" then r.statusText else text)

/-- The constructor options of `ReenClient` (`ClientOptions` in client.d.ts):
`baseUrl` optional, `token` required. -/
structure ClientOpts where
  baseUrl : Option String
  token : String
  deriving DecidableEq

/-- `s || d` for an optional string: `undefined` and `""` are falsy. -/
def jsOrStr : Option String → String → String
  | none, d => d
  | some s, d => if s = "" then d else s

/-- `.replace(/\/$/, "")`: strip one trailing slash if present. -/
def stripTrailingSlash (s : String) : String :=
  if s.data.reverse.head? = some '/' then String.mk s.data.reverse.tail.reverse else s

/-- The two instance fields of `ReenClient`. -/
structure ReenClient where
  baseUrl : String
  token : String
  deriving DecidableEq

/-- The constructor (client.js lines 11–14):
`this.baseUrl = (opts.baseUrl || DEFAULT_BASE_URL).replace(/\/$/, "")`,
`this.token = opts.token`. -/
def mkClient (opts : ClientOpts) : ReenClient :=
  { baseUrl := stripTrailingSlash (jsOrStr opts.baseUrl DEFAULT_BASE_URL)
    token := opts.token }

/-- Observable trace of one `request` call. -/
structure Trace (α : Type) where
  attempts : Nat
  delays : List Nat
  logs : List String
  urls : List String
  auths : List String
  payloads : List (Option String)
  fellThrough : Bool
  result : Except String α

/-- The sleep performed at the top of iteration `attempt`
(client.js lines 20–22): none for attempt 0, else
`INITIAL_BACKOFF_MS * 2^(attempt-1)` milliseconds. -/
def iterDelays (attempt : Nat) : List Nat :=
  if attempt = 0 then [] else [INITIAL_BACKOFF_MS * 2 ^ (attempt - 1)]

/-- The message passed to `log` at the top of iteration `attempt`
(client.js line 23). -/
def iterLogs (method path : String) (attempt : Nat) : List String :=
  if attempt = 0 then []
  else ["Retry " ++ toString attempt ++ "/" ++ toString MAX_RETRIES ++
        " for " ++ method ++ " " ++ path]

/-- Trace of an iteration that `continue`s into the trace `t` of the
remaining iterations. -/
def contTrace {α : Type} (c : ReenClient) (method path : String)
    (body : Option JsonVal) (attempt : Nat) (t : Trace α) : Trace α :=
  { attempts := t.attempts + 1
    delays := iterDelays attempt ++ t.delays
    logs := iterLogs method path attempt ++ t.logs
    urls := (c.baseUrl ++ path) :: t.urls
    auths := ("Bearer " ++ c.token) :: t.auths
    payloads := sentPayload body :: t.payloads
    fellThrough := t.fellThrough
    result := t.result }

/-- Trace of an iteration that terminates the loop (return or throw). -/
def haltTrace {α : Type} (c : ReenClient) (method path : String)
    (body : Option JsonVal) (attempt : Nat) (res : Except String α) : Trace α :=
  { attempts := 1
    delays := iterDelays attempt
    logs := iterLogs method path attempt
    urls := [c.baseUrl ++ path]
    auths := ["Bearer " ++ c.token]
    payloads := [sentPayload body]
    fellThrough := false
    result := res }

/-- The attempt loop of `ReenClient.request` (client.js lines 19–56), with
`fuel` counting the remaining iterations of `for (attempt = 0; attempt <=
MAX_RETRIES; attempt++)`.  Exhausted fuel is the post-loop fall-through
`throw lastError || new Error("Request failed")` (line 56), recorded with
`fellThrough := true`.

Branches of one iteration, in source order:
* dispatch throws: caught at line 48; retry iff `attempt < MAX_RETRIES &&
  isRetryable(lastError)`, else rethrow;
* status 429 or ≥ 500: record `retryErrText` and `continue` if attempts
  remain; at the last attempt control falls into the `!res.ok` branch, whose
  thrown `statusErrText` error is caught and rethrown (no attempts remain);
* other non-ok status: the thrown `statusErrText` error is caught at line 48,
  so it is *retried* whenever attempts remain and its text happens to match a
  retryable signature, and rethrown otherwise;
* ok status: return the decoded body. -/
def requestLoop {α : Type} (c : ReenClient) (net : Nat → DispatchOutcome α)
    (method path : String) (body : Option JsonVal) :
    Nat → Nat → Option String → Trace α
  | 0, _, lastError =>
    { attempts := 0, delays := [], logs := [], urls := [], auths := []
      payloads := [], fellThrough := true
      result := .error (lastError.getD "Request failed") }
  | fuel + 1, attempt, _ =>
    match net attempt with
    | .throws e =>
      if attempt < MAX_RETRIES ∧ isRetryable e = true then
        contTrace c method path body attempt
          (requestLoop c net method path body fuel (attempt + 1) (some e))
      else haltTrace c method path body attempt (.error e)
    | .responds r =>
      if r.status = 429 ∨ 500 ≤ r.status then
        if attempt < MAX_RETRIES then
          contTrace c method path body attempt
            (requestLoop c net method path body fuel (attempt + 1)
              (some (retryErrText r)))
        else haltTrace c method path body attempt (.error (statusErrText r))
      else if r.ok = false then
        if attempt < MAX_RETRIES ∧ isRetryable (statusErrText r) = true then
          contTrace c method path body attempt
            (requestLoop c net method path body fuel (attempt + 1)
              (some (statusErrText r)))
        else haltTrace c method path body attempt (.error (statusErrText r))
      else haltTrace c method path body attempt (.ok r.body)

/-- `ReenClient.request` (client.js lines 16–57). -/
def ReenClient.request {α : Type} (c : ReenClient) (net : Nat → DispatchOutcome α)
    (method path : String) (body : Option JsonVal) : Trace α :=
  requestLoop c net method path body (MAX_RETRIES + 1) 0 none

/-- `get(path)` shorthand (client.js lines 59–61): no body parameter. -/
def ReenClient.get {α : Type} (c : ReenClient) (net : Nat → DispatchOutcome α)
    (path : String) : Trace α :=
  c.request net "GET" path none

/-- `post(path, body?)` shorthand. -/
def ReenClient.post {α : Type} (c : ReenClient) (net : Nat → DispatchOutcome α)
    (path : String) (body : Option JsonVal) : Trace α :=
  c.request net "POST" path body

/-- `put(path, body?)` shorthand. -/
def ReenClient.put {α : Type} (c : ReenClient) (net : Nat → DispatchOutcome α)
    (path : String) (body : Option JsonVal) : Trace α :=
  c.request net "PUT" path body

/-- `patch(path, body?)` shorthand. -/
def ReenClient.patch {α : Type} (c : ReenClient) (net : Nat → DispatchOutcome α)
    (path : String) (body : Option JsonVal) : Trace α :=
  c.request net "PATCH" path body

/-- `delete(path, body?)` shorthand. -/
def ReenClient.delete {α : Type} (c : ReenClient) (net : Nat → DispatchOutcome α)
    (path : String) (body : Option JsonVal) : Trace α :=
  c.request net "DELETE" path body

/-- One operation of the executor, for reasoning about sequences of calls:
either a direct `request` or one of the five shorthands. -/
inductive CallSpec (α : Type) where
  | request (net : Nat → DispatchOutcome α) (method path : String) (body : Option JsonVal)
  | get (net : Nat → DispatchOutcome α) (path : String)
  | post (net : Nat → DispatchOutcome α) (path : String) (body : Option JsonVal)
  | put (net : Nat → DispatchOutcome α) (path : String) (body : Option JsonVal)
  | patch (net : Nat → DispatchOutcome α) (path : String) (body : Option JsonVal)
  | delete (net : Nat → DispatchOutcome α) (path : String) (body : Option JsonVal)

/-- The path argument of an operation. -/
def CallSpec.path {α : Type} : CallSpec α → String
  | .request _ _ p _ => p
  | .get _ p => p
  | .post _ p _ => p
  | .put _ p _ => p
  | .patch _ p _ => p
  | .delete _ p _ => p

/-- Execute one operation against a client. -/
def execCall {α : Type} (c : ReenClient) : CallSpec α → Trace α
  | .request net m p b => c.request net m p b
  | .get net p => c.get net p
  | .post net p b => c.post net p b
  | .put net p b => c.put net p b
  | .patch net p b => c.patch net p b
  | .delete net p b => c.delete net p b

/-- A sequence of calls against the same client; the client value is the one
piece of shared data and is passed unchanged to every call. -/
def runCalls {α : Type} (c : ReenClient) (calls : List (CallSpec α)) : List (Trace α) :=
  calls.map (execCall c)

/-! ### Startup configuration (src/index.ts lines 17–27) -/

/-- The relevant environment variables at startup. -/
structure Env where
  reenApiToken : Option String
  reenApiUrl : Option String
  deriving DecidableEq

/-- The error text written to stderr when the token is missing. -/
def TOKEN_MISSING_MSG : String :=
  "Error: REEN_API_TOKEN environment variable is required.\n" ++
  "Get your token at https://reen.tech → Settings → API Tokens.\n"

/-- Result of running the startup configuration section: either the process
exits (code, stderr text) before any client exists, or a client is built. -/
inductive StartupOutcome where
  | exited (code : Nat) (stderrMsg : String)
  | running (client : ReenClient) (baseUrl : String)
  deriving DecidableEq

/-- `index.ts` lines 17–27: `if (!token) { …; process.exit(1) }` then
`const baseUrl = process.env.REEN_API_URL || DEFAULT; new ReenClient({ baseUrl, token })`.
The `!token` test is JavaScript truthiness, so both an absent and an empty
token halt the process. -/
def startup (env : Env) : StartupOutcome :=
  match env.reenApiToken with
  | none => .exited 1 TOKEN_MISSING_MSG
  | some t =>
    if t = "" then .exited 1 TOKEN_MISSING_MSG
    else
      let baseUrl := jsOrStr env.reenApiUrl DEFAULT_BASE_URL
      .running (mkClient { baseUrl := some baseUrl, token := t }) baseUrl

/-! ### Credential-safe logging (client.js lines 88–92) -/

/-- Lowercase hexadecimal digit, i.e. the character class `[a-f0-9]` of the
redaction pattern. -/
def isHexLower (c : Char) : Bool :=
  ('a' ≤ c && c ≤ 'f') || ('0' ≤ c && c ≤ '9')

/-- The tail of the regular expression `/reen_[a-f0-9]{64}/`: do the next
`n` characters exist and all lie in the class `[a-f0-9]`? -/
def hexWindow : Nat → List Char → Bool
  | 0, _ => true
  | _ + 1, [] => false
  | n + 1, c :: cs => isHexLower c && hexWindow n cs

/-- Does `/reen_[a-f0-9]{64}/` match starting at the head of `cs`? -/
def matchesTokenAt (cs : List Char) : Bool :=
  match cs with
  | c1 :: c2 :: c3 :: c4 :: c5 :: rest =>
    c1 == 'r' && c2 == 'e' && c3 == 'e' && c4 == 'n' && c5 == '_' &&
    hexWindow 64 rest
  | _ => false

/-- The replacement text `reen_***REDACTED***` as characters. -/
def REDACTED : List Char :=
  ['r', 'e', 'e', 'n', '_', '*', '*', '*', 'R', 'E', 'D', 'A', 'C', 'T', 'E', 'D', '*', '*', '*']

/-- Global left-to-right regex replacement
`msg.replace(/reen_[a-f0-9]{64}/g, "reen_***REDACTED***")`: at each position,
if the pattern (5 + 64 characters) matches, emit the replacement and resume
after the match, else keep the character and move on. -/
def redactGo (cs : List Char) : List Char :=
  match cs with
  | [] => []
  | c :: rest =>
    if matchesTokenAt (c :: rest) then REDACTED ++ redactGo (rest.drop 68)
    else c :: redactGo rest
termination_by cs.length
decreasing_by
  all_goals simp [List.length_drop]
  omega

/-- The `safe` string computed inside `log` (client.js line 90). -/
def redact (msg : String) : String :=
  String.mk (redactGo msg.data)

/-- The full line written to stderr by `log(msg)` (client.js line 91):
`[reen-mcp] ${safe}\n`. -/
def logLine (msg : String) : String :=
  "[reen-mcp] " ++ redact msg ++ "\n"

/-- Does some position of `cs` start a `/reen_[a-f0-9]{64}/` match? -/
def containsShape : List Char → Bool
  | [] => false
  | c :: cs => matchesTokenAt (c :: cs) || containsShape cs

/-- `containsShape` on a string. -/
def containsShapeStr (s : String) : Bool :=
  containsShape s.data

/-- Does the string end with `'/'`? -/
def endsSlash (s : String) : Bool :=
  decide (s.data.reverse.head? = some '/')

/-- Does the string end with `"//"`? -/
def endsDoubleSlash (s : String) : Bool :=
  decide (s.data.reverse.head? = some '/') && decide (s.data.reverse.tail.head? = some '/')

/-- A character that can play no role in a `/reen_[a-f0-9]{64}/` match:
not a lowercase hex digit and none of `r`, `e`, `n`, `_`.  The newline
appended by `log` is such a character. -/
def inert (c : Char) : Bool :=
  !isHexLower c && !(c == 'r') && !(c == 'e') && !(c == 'n') && !(c == '_')

end Reen

namespace Reen

/-! ### Basic string lemmas -/

theorem str_data_append (a b : String) : (a ++ b).data = a.data ++ b.data := by
  cases a; cases b; rfl

theorem isPrefixOf_append_self (l r : List Char) : l.isPrefixOf (l ++ r) = true := by
  induction l with
  | nil => simp [List.isPrefixOf]
  | cons c cs ih => simp [List.isPrefixOf, ih]

theorem listContains_append_self (pat r : List Char) :
    listContains pat (pat ++ r) = true := by
  cases pat with
  | nil =>
    cases r with
    | nil => rfl
    | cons c cs => simp [listContains, List.isPrefixOf]
  | cons p ps =>
    simp [listContains, isPrefixOf_append_self]

/-- A string includes any of its leading segments. -/
theorem strIncludes_left (a b : String) : strIncludes (a ++ b) a = true := by
  simpa [strIncludes, str_data_append] using listContains_append_self a.data b.data

/-- `statusErrText` starts with `"HTTP "` followed by the decimal status. -/
theorem statusErrText_includes_status {α : Type} (r : FetchResponse α) :
    strIncludes (statusErrText r) ("HTTP " ++ toString r.status) = true := by
  have h : statusErrText r =
      ("HTTP " ++ toString r.status) ++
        (": " ++ (if r.textResult.getD "" = "" then r.statusText else r.textResult.getD "")) := by
    simp [statusErrText, String.append_assoc]
  rw [h]
  exact strIncludes_left _ _

/-! ### Generic facts about the attempt loop -/

/-- Every iteration of the loop dispatches the same URL (`baseUrl ++ path`),
the same Authorization header, and the same payload computed once from the
`body` argument; these lists have one entry per attempt. -/
theorem requestLoop_fields {α : Type} (c : ReenClient) (net : Nat → DispatchOutcome α)
    (m p : String) (b : Option JsonVal) :
    ∀ fuel attempt le,
      (requestLoop c net m p b fuel attempt le).payloads =
        List.replicate (requestLoop c net m p b fuel attempt le).attempts (sentPayload b) ∧
      (requestLoop c net m p b fuel attempt le).urls =
        List.replicate (requestLoop c net m p b fuel attempt le).attempts (c.baseUrl ++ p) ∧
      (requestLoop c net m p b fuel attempt le).auths =
        List.replicate (requestLoop c net m p b fuel attempt le).attempts ("Bearer " ++ c.token) := by
  intro fuel
  induction fuel with
  | zero => intro attempt le; simp [requestLoop]
  | succ n ih =>
    intro attempt le
    simp only [requestLoop]
    cases net attempt with
    | throws e =>
      by_cases h : attempt < MAX_RETRIES ∧ isRetryable e = true
      · simp only [if_pos h, contTrace]
        rcases ih (attempt + 1) (some e) with ⟨h1, h2, h3⟩
        simp [h1, h2, h3, List.replicate_succ]
      · simp [if_neg h, haltTrace]
    | responds r =>
      by_cases hs : r.status = 429 ∨ 500 ≤ r.status
      · by_cases ha : attempt < MAX_RETRIES
        · simp only [if_pos hs, if_pos ha, contTrace]
          rcases ih (attempt + 1) (some (retryErrText r)) with ⟨h1, h2, h3⟩
          simp [h1, h2, h3, List.replicate_succ]
        · simp [if_pos hs, if_neg ha, haltTrace]
      · by_cases ho : r.ok = false
        · by_cases h : attempt < MAX_RETRIES ∧ isRetryable (statusErrText r) = true
          · simp only [if_neg hs, if_pos ho, if_pos h, contTrace]
            rcases ih (attempt + 1) (some (statusErrText r)) with ⟨h1, h2, h3⟩
            simp [h1, h2, h3, List.replicate_succ]
          · simp [if_neg hs, if_pos ho, if_neg h, haltTrace]
        · simp [if_neg hs, if_neg ho, haltTrace]

/-- As long as the loop is entered with fuel covering the remaining attempts
(the invariant of the `for` loop), it never reaches the fuel-exhausted
fall-through. -/
theorem requestLoop_no_fallthrough {α : Type} (c : ReenClient)
    (net : Nat → DispatchOutcome α) (m p : String) (b : Option JsonVal) :
    ∀ fuel attempt le, attempt ≤ MAX_RETRIES → MAX_RETRIES < attempt + fuel →
      (requestLoop c net m p b fuel attempt le).fellThrough = false := by
  intro fuel
  induction fuel with
  | zero => intro attempt le h1 h2; omega
  | succ n ih =>
    intro attempt le h1 h2
    simp only [requestLoop]
    cases net attempt with
    | throws e =>
      by_cases h : attempt < MAX_RETRIES ∧ isRetryable e = true
      · simp only [if_pos h, contTrace]
        exact ih (attempt + 1) (some e) (by omega) (by omega)
      · simp [if_neg h, haltTrace]
    | responds r =>
      by_cases hs : r.status = 429 ∨ 500 ≤ r.status
      · by_cases ha : attempt < MAX_RETRIES
        · simp only [if_pos hs, if_pos ha, contTrace]
          exact ih (attempt + 1) (some (retryErrText r)) (by omega) (by omega)
        · simp [if_pos hs, if_neg ha, haltTrace]
      · by_cases ho : r.ok = false
        · by_cases h : attempt < MAX_RETRIES ∧ isRetryable (statusErrText r) = true
          · simp only [if_neg hs, if_pos ho, if_pos h, contTrace]
            exact ih (attempt + 1) (some (statusErrText r)) (by omega) (by omega)
          · simp [if_neg hs, if_pos ho, if_neg h, haltTrace]
        · simp [if_neg hs, if_neg ho, haltTrace]

/-- Claim C10: for every execution of `request` in which each dispatch either
yields a response or throws (which the `DispatchOutcome` model makes total),
the function returns or raises from within some iteration of the attempt
loop; the post-loop `throw lastError || new Error("Request failed")` is
unreachable. -/
theorem request_fallback_unreachable {α : Type} (c : ReenClient)
    (net : Nat → DispatchOutcome α) (m p : String) (b : Option JsonVal) :
    (c.request net m p b).fellThrough = false :=
  requestLoop_no_fallthrough c net m p b (MAX_RETRIES + 1) 0 none (by omega) (by omega)

/-- Claim C2: a first response with status 200–299 yields exactly one network
attempt, no sleeps, and the JSON-decoded body returned unchanged. -/
theorem request_success_single_attempt {α : Type} (c : ReenClient)
    (net : Nat → DispatchOutcome α) (m p : String) (b : Option JsonVal)
    (r : FetchResponse α) (hnet : net 0 = .responds r)
    (hlo : 200 ≤ r.status) (hhi : r.status < 300) :
    (c.request net m p b).attempts = 1 ∧ (c.request net m p b).delays = [] ∧
      (c.request net m p b).result = .ok r.body := by
  have hok : r.ok = true := by simp [FetchResponse.ok]; omega
  have hns : ¬(r.status = 429 ∨ 500 ≤ r.status) := by omega
  simp only [ReenClient.request, requestLoop, hnet]
  rw [if_neg hns, if_neg (by simp [hok])]
  simp [haltTrace, iterDelays, iterLogs]

/-- Witness for C2 at a concrete input. -/
theorem request_success_single_attempt_witness :
    let c := mkClient { baseUrl := some "https://h", token := "tok" }
    let net : Nat → DispatchOutcome Nat := fun _ => .responds ⟨200, "OK", some "", 7⟩
    (c.request net "GET" "/api/auth/me" none).attempts = 1 ∧
      (c.request net "GET" "/api/auth/me" none).delays = [] ∧
      (c.request net "GET" "/api/auth/me" none).result = .ok 7 :=
  request_success_single_attempt _ _ "GET" "/api/auth/me" none
    ⟨200, "OK", some "", 7⟩ rfl (by decide) (by decide)

end Reen

namespace Reen

/-- Claim C1: when every attempt's response has status 429 or 5xx, the loop
runs all `MAX_RETRIES + 1 = 4` attempts, sleeping 1000ms, 2000ms, 4000ms
before attempts 1–3, and raises an error embedding the last observed status
(the final message is `statusErrText` of the last response, which begins with
`"HTTP " ++ status`). -/
theorem request_429_5xx_exhaustion {α : Type} (c : ReenClient)
    (net : Nat → DispatchOutcome α) (m p : String) (b : Option JsonVal)
    (h : ∀ a, a ≤ MAX_RETRIES →
      ∃ r, net a = .responds r ∧ (r.status = 429 ∨ 500 ≤ r.status)) :
    (c.request net m p b).attempts = 4 ∧
    (c.request net m p b).delays = [1000, 2000, 4000] ∧
    ∃ r3, net 3 = .responds r3 ∧
      (c.request net m p b).result = .error (statusErrText r3) ∧
      strIncludes (statusErrText r3) ("HTTP " ++ toString r3.status) = true := by
  obtain ⟨r0, hn0, hs0⟩ := h 0 (by decide)
  obtain ⟨r1, hn1, hs1⟩ := h 1 (by decide)
  obtain ⟨r2, hn2, hs2⟩ := h 2 (by decide)
  obtain ⟨r3, hn3, hs3⟩ := h 3 (by decide)
  refine ⟨?_, ?_, r3, hn3, ?_, statusErrText_includes_status r3⟩ <;>
    simp [ReenClient.request, requestLoop, MAX_RETRIES, hn0, hn1, hn2, hn3,
      hs0, hs1, hs2, hs3, contTrace, haltTrace, iterDelays, INITIAL_BACKOFF_MS]

/-- Witness for C1 at a concrete input: every attempt answers 503. -/
theorem request_429_5xx_exhaustion_witness :
    let c := mkClient { baseUrl := some "https://h", token := "tok" }
    let net : Nat → DispatchOutcome Nat :=
      fun _ => .responds ⟨503, "Service Unavailable", some "", 0⟩
    (c.request net "GET" "/x" none).attempts = 4 ∧
      (c.request net "GET" "/x" none).delays = [1000, 2000, 4000] ∧
      ∃ r3, net 3 = .responds r3 ∧
        (c.request net "GET" "/x" none).result = .error (statusErrText r3) ∧
        strIncludes (statusErrText r3) ("HTTP " ++ toString r3.status) = true :=
  request_429_5xx_exhaustion _ _ "GET" "/x" none
    (fun a _ => ⟨⟨503, "Service Unavailable", some "", 0⟩, rfl, by decide⟩)

end Reen

namespace Reen

/-- Claim C3 counterexample: a 404 response whose body text happens to contain
a retryable signature (`"http 500"` here) is *retried* — the thrown
`statusErrText` error is caught by the same `catch` block that classifies
network errors — so `execute` can succeed after 2 attempts instead of
raising after exactly one. -/
theorem request_404_retried_counterexample :
    let c := mkClient { baseUrl := some "https://h", token := "tok" }
    let net : Nat → DispatchOutcome Nat := fun a =>
      match a with
      | 0 => .responds ⟨404, "Not Found", some "see http 500 upstream", 0⟩
      | _ => .responds ⟨200, "OK", some "", 7⟩
    (c.request net "GET" "/x" none).attempts = 2 ∧
      (c.request net "GET" "/x" none).result = .ok 7 :=
  ⟨rfl, rfl⟩

/-- Claim C3 (amended): a response whose status is neither 429 nor 5xx nor a
success raises `statusErrText` after exactly one attempt *provided* that
message does not itself match a retryable signature (which is the case for
every ordinary 404); if the body text smuggles in a signature such as
`"http 5"`, the failure is retried like a network error. -/
theorem request_404_fatal_amended {α : Type} (c : ReenClient)
    (net : Nat → DispatchOutcome α) (m p : String) (b : Option JsonVal)
    (r : FetchResponse α) (hnet : net 0 = .responds r)
    (h429 : r.status ≠ 429) (h5 : r.status < 500) (hok : r.ok = false)
    (hnr : isRetryable (statusErrText r) = false) :
    (c.request net m p b).attempts = 1 ∧ (c.request net m p b).delays = [] ∧
      (c.request net m p b).result = .error (statusErrText r) := by
  have hns : ¬(r.status = 429 ∨ 500 ≤ r.status) := by omega
  refine ⟨?_, ?_, ?_⟩ <;>
    simp [ReenClient.request, requestLoop, MAX_RETRIES, hnet, hns, hok, hnr,
      haltTrace, iterDelays]

/-- Witness for the amended C3 at a concrete input: a plain 404. -/
theorem request_404_fatal_amended_witness :
    let c := mkClient { baseUrl := some "https://h", token := "tok" }
    let net : Nat → DispatchOutcome Nat :=
      fun _ => .responds ⟨404, "Not Found", some "missing", 0⟩
    (c.request net "GET" "/x" none).attempts = 1 ∧
      (c.request net "GET" "/x" none).delays = [] ∧
      (c.request net "GET" "/x" none).result =
        .error (statusErrText (⟨404, "Not Found", some "missing", 0⟩ : FetchResponse Nat)) :=
  request_404_fatal_amended _ _ "GET" "/x" none _ rfl
    (by decide) (by decide) (by decide) (by decide)

/-- Claim C5 counterexample: a *present* but falsy body (`0`) is dropped by
the JavaScript truthiness test `body ? JSON.stringify(body) : undefined`:
the single attempt dispatches no payload at all, not the serialization. -/
theorem request_falsy_body_counterexample :
    let c := mkClient { baseUrl := some "https://h", token := "tok" }
    let net : Nat → DispatchOutcome Nat := fun _ => .responds ⟨200, "OK", some "", 7⟩
    (c.request net "POST" "/p" (some (JsonVal.num 0))).attempts = 1 ∧
      (c.request net "POST" "/p" (some (JsonVal.num 0))).payloads = [none] ∧
      sentPayload (some (JsonVal.num 0)) = none :=
  ⟨rfl, rfl, rfl⟩

/-- Claim C5 (amended): every attempt of a call, including retries, carries
the payload `sentPayload body` computed once from the call's `body` argument
— so the serialization is identical on every attempt; a truthy body is sent
as its `JSON.stringify`, while an absent body — or a present but falsy one
(`false`, `0`, `""`, `null`) — yields no payload at all. -/
theorem request_payload_serialization {α : Type} (c : ReenClient)
    (net : Nat → DispatchOutcome α) (m p : String) (body : Option JsonVal) :
    (c.request net m p body).payloads =
      List.replicate (c.request net m p body).attempts (sentPayload body) ∧
    sentPayload none = none ∧
    (∀ v : JsonVal, v.truthy = true → sentPayload (some v) = some (jsonStringify v)) := by
  refine ⟨(requestLoop_fields c net m p body (MAX_RETRIES + 1) 0 none).1, rfl, ?_⟩
  intro v hv
  simp [sentPayload, hv]

/-- Witness for the amended C5 at a concrete input. -/
theorem request_payload_serialization_witness :
    let c := mkClient { baseUrl := some "https://h", token := "tok" }
    let net : Nat → DispatchOutcome Nat := fun _ => .responds ⟨200, "OK", some "", 7⟩
    (c.request net "POST" "/p" (some (JsonVal.str "x"))).payloads =
      List.replicate (c.request net "POST" "/p" (some (JsonVal.str "x"))).attempts
        (sentPayload (some (JsonVal.str "x"))) ∧
    sentPayload none = none ∧
    sentPayload (some (JsonVal.str "x")) = some (jsonStringify (JsonVal.str "x")) :=
  ⟨(request_payload_serialization _ _ "POST" "/p" (some (JsonVal.str "x"))).1,
   (request_payload_serialization (mkClient { baseUrl := some "https://h", token := "tok" })
      (fun _ => .responds ⟨200, "OK", some "", (7:Nat)⟩) "POST" "/p" (some (JsonVal.str "x"))).2.1,
   (request_payload_serialization (mkClient { baseUrl := some "https://h", token := "tok" })
      (fun _ => .responds ⟨200, "OK", some "", (7:Nat)⟩) "POST" "/p" (some (JsonVal.str "x"))).2.2
     (JsonVal.str "x") (by decide)⟩

/-- Claim C6: classification of a throwing dispatch.  At any attempt with
remaining budget and a retryable message the loop continues into attempt
`a + 1`; otherwise the error is raised immediately from that attempt.  In
particular a connection-refused first attempt followed by a 2xx response
yields the successful body after exactly 2 attempts, with the single 1000ms
backoff sleep. -/
theorem request_network_error_classification {α : Type} (c : ReenClient)
    (net : Nat → DispatchOutcome α) (m p : String) (b : Option JsonVal) :
    (∀ attempt fuel le e, net attempt = .throws e →
      attempt < MAX_RETRIES → isRetryable e = true →
        (requestLoop c net m p b (fuel + 1) attempt le).result =
          (requestLoop c net m p b fuel (attempt + 1) (some e)).result ∧
        (requestLoop c net m p b (fuel + 1) attempt le).attempts =
          (requestLoop c net m p b fuel (attempt + 1) (some e)).attempts + 1) ∧
    (∀ attempt fuel le e, net attempt = .throws e →
      ¬(attempt < MAX_RETRIES ∧ isRetryable e = true) →
        (requestLoop c net m p b (fuel + 1) attempt le).result = .error e ∧
        (requestLoop c net m p b (fuel + 1) attempt le).attempts = 1) ∧
    (∀ e r, net 0 = .throws e → isRetryable e = true →
      net 1 = .responds r → r.ok = true →
        (c.request net m p b).attempts = 2 ∧
        (c.request net m p b).delays = [INITIAL_BACKOFF_MS] ∧
        (c.request net m p b).result = .ok r.body) := by
  refine ⟨?_, ?_, ?_⟩
  · intro attempt fuel le e hnet ha hr
    simp [requestLoop, hnet, ha, hr, contTrace]
  · intro attempt fuel le e hnet hno
    simp [requestLoop, hnet, hno, haltTrace]
  · intro e r hnet0 hr hnet1 hok
    have hbounds := of_decide_eq_true hok
    have hns : ¬(r.status = 429 ∨ 500 ≤ r.status) := by omega
    have hokf : ¬(r.ok = false) := by simp [hok]
    refine ⟨?_, ?_, ?_⟩ <;>
      simp [ReenClient.request, requestLoop, MAX_RETRIES, hnet0, hnet1, hr, hns, hokf,
        contTrace, haltTrace, iterDelays, INITIAL_BACKOFF_MS]

/-- Witness for C6 at a concrete input: connection refused, then 200. -/
theorem request_network_error_classification_witness :
    let c := mkClient { baseUrl := some "https://h", token := "tok" }
    let net : Nat → DispatchOutcome Nat := fun a =>
      match a with
      | 0 => .throws "ECONNREFUSED: connection refused"
      | _ => .responds ⟨200, "OK", some "", 9⟩
    (c.request net "GET" "/x" none).attempts = 2 ∧
      (c.request net "GET" "/x" none).delays = [INITIAL_BACKOFF_MS] ∧
      (c.request net "GET" "/x" none).result = .ok 9 :=
  (request_network_error_classification _ _ "GET" "/x" none).2.2
    "ECONNREFUSED: connection refused" ⟨200, "OK", some "", 9⟩
    rfl (by decide) rfl (by decide)

/-- Claim C7 counterexample: a base address ending in `"//"` keeps a trailing
slash, because `.replace(/\/$/, "")` strips at most one. -/
theorem baseUrl_double_slash_counterexample :
    (mkClient { baseUrl := some "https://h//", token := "t" }).baseUrl = "https://h/" ∧
      endsSlash (mkClient { baseUrl := some "https://h//", token := "t" }).baseUrl = true :=
  ⟨rfl, rfl⟩

/-- Stripping one trailing slash from a string that does not end in `"//"`
leaves no trailing slash. -/
theorem endsSlash_strip (s : String) (hdd : endsDoubleSlash s = false) :
    endsSlash (stripTrailingSlash s) = false := by
  by_cases h1 : s.data.reverse.head? = some '/'
  · have h2 : ¬s.data.reverse.tail.head? = some '/' := by
      simp only [endsDoubleSlash, h1] at hdd
      simpa using hdd
    simp only [stripTrailingSlash, if_pos h1, endsSlash]
    show decide ((s.data.reverse.tail.reverse).reverse.head? = some '/') = false
    rw [List.reverse_reverse]
    exact decide_eq_false h2
  · simp only [stripTrailingSlash, if_neg h1, endsSlash]
    exact decide_eq_false h1

/-- Claim C7 (amended): the stored base address is the supplied one (with the
default substituted for an absent or empty string) with *at most one*
trailing slash stripped; whenever the supplied address does not end in
`"//"`, the stored address has no trailing slash; and every dispatch of a
request goes to the stored base address concatenated with the path. -/
theorem baseUrl_normalization {α : Type} (opts : ClientOpts)
    (net : Nat → DispatchOutcome α) (m p : String) (b : Option JsonVal) :
    (mkClient opts).baseUrl = stripTrailingSlash (jsOrStr opts.baseUrl DEFAULT_BASE_URL) ∧
    (endsDoubleSlash (jsOrStr opts.baseUrl DEFAULT_BASE_URL) = false →
      endsSlash (mkClient opts).baseUrl = false) ∧
    ((mkClient opts).request net m p b).urls =
      List.replicate ((mkClient opts).request net m p b).attempts
        ((mkClient opts).baseUrl ++ p) := by
  exact ⟨rfl, fun hdd => endsSlash_strip _ hdd,
    (requestLoop_fields _ net m p b (MAX_RETRIES + 1) 0 none).2.1⟩

/-- Witness for the amended C7 at a concrete input. -/
theorem baseUrl_normalization_witness :
    (mkClient { baseUrl := some "https://h/", token := "t" }).baseUrl =
      stripTrailingSlash (jsOrStr (some "https://h/") DEFAULT_BASE_URL) ∧
    endsSlash (mkClient { baseUrl := some "https://h/", token := "t" }).baseUrl = false ∧
    ((mkClient { baseUrl := some "https://h/", token := "t" }).request
        (fun _ => (.responds ⟨200, "OK", some "", 7⟩ : DispatchOutcome Nat)) "GET" "/x" none).urls =
      List.replicate
        ((mkClient { baseUrl := some "https://h/", token := "t" }).request
          (fun _ => (.responds ⟨200, "OK", some "", 7⟩ : DispatchOutcome Nat)) "GET" "/x" none).attempts
        ((mkClient { baseUrl := some "https://h/", token := "t" }).baseUrl ++ "/x") :=
  ⟨(baseUrl_normalization { baseUrl := some "https://h/", token := "t" }
      (fun _ => (.responds ⟨200, "OK", some "", 7⟩ : DispatchOutcome Nat)) "GET" "/x" none).1,
   (baseUrl_normalization { baseUrl := some "https://h/", token := "t" }
      (fun _ => (.responds ⟨200, "OK", some "", 7⟩ : DispatchOutcome Nat)) "GET" "/x" none).2.1 (by decide),
   (baseUrl_normalization { baseUrl := some "https://h/", token := "t" }
      (fun _ => (.responds ⟨200, "OK", some "", 7⟩ : DispatchOutcome Nat)) "GET" "/x" none).2.2⟩

/-- Claim C8: an absent `REEN_API_TOKEN` halts the process with exit code 1
and the explanatory stderr message; the resulting `StartupOutcome` carries no
client, so no executor is ever constructed. -/
theorem startup_missing_token_halts (env : Env) (h : env.reenApiToken = none) :
    startup env = .exited 1 TOKEN_MISSING_MSG := by
  simp [startup, h]

/-- Witness for C8 at a concrete input. -/
theorem startup_missing_token_halts_witness :
    startup { reenApiToken := none, reenApiUrl := some "https://x" } =
      .exited 1 TOKEN_MISSING_MSG :=
  startup_missing_token_halts _ rfl

/-- Claim C9: the two fields of the executor are fixed at construction: over
any sequence of calls (direct `request` or any shorthand), every dispatched
attempt of every call carries the Authorization header built from the
constructed token and a URL built from the constructed base address — the
calls are independent and share only the read-only client value. -/
theorem client_fields_immutable {α : Type} (opts : ClientOpts)
    (calls : List (CallSpec α)) (s : CallSpec α) (hmem : s ∈ calls) :
    runCalls (mkClient opts) calls = calls.map (execCall (mkClient opts)) ∧
    (execCall (mkClient opts) s).auths =
      List.replicate (execCall (mkClient opts) s).attempts ("Bearer " ++ opts.token) ∧
    (execCall (mkClient opts) s).urls =
      List.replicate (execCall (mkClient opts) s).attempts
        ((mkClient opts).baseUrl ++ s.path) := by
  refine ⟨rfl, ?_, ?_⟩
  · cases s <;> exact (requestLoop_fields _ _ _ _ _ (MAX_RETRIES + 1) 0 none).2.2
  · cases s <;> exact (requestLoop_fields _ _ _ _ _ (MAX_RETRIES + 1) 0 none).2.1

/-- Witness for C9 at a concrete input. -/
theorem client_fields_immutable_witness :
    let opts : ClientOpts := { baseUrl := some "https://h", token := "tok" }
    let net : Nat → DispatchOutcome Nat := fun _ => .responds ⟨200, "OK", some "", 7⟩
    (execCall (mkClient opts) (.get net "/a")).auths =
      List.replicate (execCall (mkClient opts) (.get net "/a")).attempts
        ("Bearer " ++ opts.token) ∧
    (execCall (mkClient opts) (.get net "/a")).urls =
      List.replicate (execCall (mkClient opts) (.get net "/a")).attempts
        ((mkClient opts).baseUrl ++ (CallSpec.get net "/a").path) :=
  ⟨(client_fields_immutable { baseUrl := some "https://h", token := "tok" }
      [.get (fun _ => .responds ⟨200, "OK", some "", (7:Nat)⟩) "/a"]
      (.get (fun _ => .responds ⟨200, "OK", some "", (7:Nat)⟩) "/a")
      (List.mem_singleton.mpr rfl)).2.1,
   (client_fields_immutable { baseUrl := some "https://h", token := "tok" }
      [.get (fun _ => .responds ⟨200, "OK", some "", (7:Nat)⟩) "/a"]
      (.get (fun _ => .responds ⟨200, "OK", some "", (7:Nat)⟩) "/a")
      (List.mem_singleton.mpr rfl)).2.2⟩

end Reen

namespace Reen

/-! ### The redaction pattern cannot survive `redact` (claim C4) -/

theorem inert_spec (c : Char) (h : inert c = true) :
    isHexLower c = false ∧ (c == 'r') = false ∧ (c == 'e') = false ∧
      (c == 'n') = false ∧ (c == '_') = false := by
  have h' := h
  simp only [inert, Bool.and_eq_true, Bool.not_eq_true'] at h'
  exact ⟨h'.1.1.1.1, h'.1.1.1.2, h'.1.1.2, h'.1.2, h'.2⟩

theorem matchesTokenAt_head_ne (c : Char) (xs : List Char) (h : (c == 'r') = false) :
    matchesTokenAt (c :: xs) = false := by
  match xs with
  | [] => rfl
  | [a] => rfl
  | [a, b] => rfl
  | [a, b, d] => rfl
  | a :: b :: d :: e :: rest => simp [matchesTokenAt, h]

theorem matchesTokenAt_second_ne (c x : Char) (xs : List Char) (h : (x == 'e') = false) :
    matchesTokenAt (c :: x :: xs) = false := by
  match xs with
  | [] => rfl
  | [a] => rfl
  | [a, b] => rfl
  | a :: b :: d :: rest => simp [matchesTokenAt, h]

theorem matchesTokenAt_third_ne (c x y : Char) (xs : List Char) (h : (y == 'e') = false) :
    matchesTokenAt (c :: x :: y :: xs) = false := by
  match xs with
  | [] => rfl
  | [a] => rfl
  | a :: b :: rest => simp [matchesTokenAt, h]

theorem matchesTokenAt_fourth_ne (c x y z : Char) (xs : List Char) (h : (z == 'n') = false) :
    matchesTokenAt (c :: x :: y :: z :: xs) = false := by
  match xs with
  | [] => rfl
  | a :: rest => simp [matchesTokenAt, h]

theorem matchesTokenAt_fifth_ne (c x y z w : Char) (xs : List Char) (h : (w == '_') = false) :
    matchesTokenAt (c :: x :: y :: z :: w :: xs) = false := by
  simp [matchesTokenAt, h]

theorem redactGo_nil : redactGo [] = [] := by
  simp [redactGo]

theorem redactGo_cons_pos (c : Char) (cs : List Char) (h : matchesTokenAt (c :: cs) = true) :
    redactGo (c :: cs) = REDACTED ++ redactGo (cs.drop 68) := by
  rw [redactGo]
  simp [h]

theorem redactGo_cons_neg (c : Char) (cs : List Char) (h : matchesTokenAt (c :: cs) = false) :
    redactGo (c :: cs) = c :: redactGo cs := by
  rw [redactGo]
  simp [h]

theorem containsShape_cons_of (c : Char) (xs : List Char)
    (h : matchesTokenAt (c :: xs) = false) :
    containsShape (c :: xs) = containsShape xs := by
  show (matchesTokenAt (c :: xs) || containsShape xs) = containsShape xs
  rw [h]
  simp

theorem containsShape_cons_ne (c : Char) (xs : List Char) (h : (c == 'r') = false) :
    containsShape (c :: xs) = containsShape xs :=
  containsShape_cons_of c xs (matchesTokenAt_head_ne c xs h)

theorem containsShape_of_inert (t : List Char) (ht : ∀ c ∈ t, inert c = true) :
    containsShape t = false := by
  induction t with
  | nil => rfl
  | cons c t' ih =>
    rw [containsShape_cons_ne c t' (inert_spec c (ht c (by simp))).2.1]
    exact ih fun x hx => ht x (by simp [hx])

theorem containsShape_redacted_append (X : List Char) :
    containsShape (REDACTED ++ X) = containsShape X := by
  have h0 : matchesTokenAt (REDACTED ++ X) = false := by
    simp only [REDACTED, List.cons_append, List.nil_append, matchesTokenAt]
    simp [hexWindow, show isHexLower '*' = false from by decide]
  simp only [REDACTED, List.cons_append, List.nil_append] at h0 ⊢
  rw [containsShape_cons_of _ _ h0,
      containsShape_cons_ne 'e' _ (by decide), containsShape_cons_ne 'e' _ (by decide),
      containsShape_cons_ne 'n' _ (by decide), containsShape_cons_ne '_' _ (by decide),
      containsShape_cons_ne '*' _ (by decide), containsShape_cons_ne '*' _ (by decide),
      containsShape_cons_ne '*' _ (by decide), containsShape_cons_ne 'R' _ (by decide),
      containsShape_cons_ne 'E' _ (by decide), containsShape_cons_ne 'D' _ (by decide),
      containsShape_cons_ne 'A' _ (by decide), containsShape_cons_ne 'C' _ (by decide),
      containsShape_cons_ne 'T' _ (by decide), containsShape_cons_ne 'E' _ (by decide),
      containsShape_cons_ne 'D' _ (by decide), containsShape_cons_ne '*' _ (by decide),
      containsShape_cons_ne '*' _ (by decide), containsShape_cons_ne '*' _ (by decide)]

theorem hexWindow_fails_redact (cs : List Char) :
    ∀ (n : Nat) (t : List Char), (∀ c ∈ t, inert c = true) →
      hexWindow n cs = false → hexWindow n (redactGo cs ++ t) = false := by
  induction cs with
  | nil =>
    intro n t ht h
    rw [redactGo_nil, List.nil_append]
    cases n with
    | zero => simp [hexWindow] at h
    | succ m =>
      cases t with
      | nil => rfl
      | cons x t' =>
        have hx := (inert_spec x (ht x (by simp))).1
        simp [hexWindow, hx]
  | cons c cs' ih =>
    intro n t ht h
    by_cases h1 : matchesTokenAt (c :: cs') = true
    · rw [redactGo_cons_pos c cs' h1]
      cases n with
      | zero => simp [hexWindow] at h
      | succ m =>
        simp only [REDACTED, List.cons_append, List.nil_append]
        simp [hexWindow, show isHexLower 'r' = false from by decide]
    · rw [redactGo_cons_neg c cs' (by simpa using h1), List.cons_append]
      cases n with
      | zero => simp [hexWindow] at h
      | succ m =>
        have h' : (isHexLower c && hexWindow m cs') = false := h
        show (isHexLower c && hexWindow m (redactGo cs' ++ t)) = false
        cases hc : isHexLower c with
        | false => simp
        | true =>
          rw [hc] at h'
          simp only [Bool.true_and] at h'
          simp [ih m t ht h']

theorem matchesTokenAt_fails_redact (cs t : List Char)
    (ht : ∀ c ∈ t, inert c = true) (hm : matchesTokenAt cs = false) :
    matchesTokenAt (redactGo cs ++ t) = false := by
  match cs with
  | [] =>
    rw [redactGo_nil, List.nil_append]
    cases t with
    | nil => rfl
    | cons x t' => exact matchesTokenAt_head_ne x t' (inert_spec x (ht x (by simp))).2.1
  | c :: cs' =>
    rw [redactGo_cons_neg c cs' hm, List.cons_append]
    by_cases hcr : (c == 'r') = false
    · exact matchesTokenAt_head_ne c _ hcr
    · match cs' with
      | [] =>
        rw [redactGo_nil, List.nil_append]
        cases t with
        | nil => rfl
        | cons x t' =>
          exact matchesTokenAt_second_ne c x t' (inert_spec x (ht x (by simp))).2.2.1
      | [a] =>
        rw [redactGo_cons_neg a [] rfl, redactGo_nil, List.cons_append, List.nil_append]
        cases t with
        | nil => rfl
        | cons x t' =>
          exact matchesTokenAt_third_ne c a x t' (inert_spec x (ht x (by simp))).2.2.1
      | [a, b] =>
        rw [redactGo_cons_neg a [b] rfl, redactGo_cons_neg b [] rfl, redactGo_nil]
        simp only [List.cons_append, List.nil_append]
        cases t with
        | nil => rfl
        | cons x t' =>
          exact matchesTokenAt_fourth_ne c a b x t' (inert_spec x (ht x (by simp))).2.2.2.1
      | [a, b, d] =>
        rw [redactGo_cons_neg a [b, d] rfl, redactGo_cons_neg b [d] rfl,
            redactGo_cons_neg d [] rfl, redactGo_nil]
        simp only [List.cons_append, List.nil_append]
        cases t with
        | nil => rfl
        | cons x t' =>
          exact matchesTokenAt_fifth_ne c a b d x t' (inert_spec x (ht x (by simp))).2.2.2.2
      | a :: b :: d :: e :: rest =>
        by_cases h1 : matchesTokenAt (a :: b :: d :: e :: rest) = true
        · rw [redactGo_cons_pos _ _ h1]
          simp only [REDACTED, List.cons_append, List.nil_append]
          exact matchesTokenAt_second_ne c 'r' _ (by decide)
        · rw [redactGo_cons_neg _ _ (by simpa using h1), List.cons_append]
          by_cases ha : (a == 'e') = false
          · exact matchesTokenAt_second_ne c a _ ha
          · have ha' : a = 'e' := by simpa using ha
            subst ha'
            by_cases h2 : matchesTokenAt (b :: d :: e :: rest) = true
            · rw [redactGo_cons_pos _ _ h2]
              simp only [REDACTED, List.cons_append, List.nil_append]
              exact matchesTokenAt_third_ne c 'e' 'r' _ (by decide)
            · rw [redactGo_cons_neg _ _ (by simpa using h2), List.cons_append]
              by_cases hb : (b == 'e') = false
              · exact matchesTokenAt_third_ne c 'e' b _ hb
              · have hb' : b = 'e' := by simpa using hb
                subst hb'
                by_cases h3 : matchesTokenAt (d :: e :: rest) = true
                · rw [redactGo_cons_pos _ _ h3]
                  simp only [REDACTED, List.cons_append, List.nil_append]
                  exact matchesTokenAt_fourth_ne c 'e' 'e' 'r' _ (by decide)
                · rw [redactGo_cons_neg _ _ (by simpa using h3), List.cons_append]
                  by_cases hd : (d == 'n') = false
                  · exact matchesTokenAt_fourth_ne c 'e' 'e' d _ hd
                  · have hd' : d = 'n' := by simpa using hd
                    subst hd'
                    by_cases h4 : matchesTokenAt (e :: rest) = true
                    · rw [redactGo_cons_pos _ _ h4]
                      simp only [REDACTED, List.cons_append, List.nil_append]
                      exact matchesTokenAt_fifth_ne c 'e' 'e' 'n' 'r' _ (by decide)
                    · rw [redactGo_cons_neg _ _ (by simpa using h4), List.cons_append]
                      by_cases he : (e == '_') = false
                      · exact matchesTokenAt_fifth_ne c 'e' 'e' 'n' e _ he
                      · have he' : e = '_' := by simpa using he
                        subst he'
                        have hc' : c = 'r' := by simpa using hcr
                        subst hc'
                        have hw : hexWindow 64 rest = false := by
                          simpa [matchesTokenAt] using hm
                        simp [matchesTokenAt, hexWindow_fails_redact rest 64 t ht hw]

theorem redact_no_shape (cs t : List Char) (ht : ∀ c ∈ t, inert c = true) :
    containsShape (redactGo cs ++ t) = false := by
  match cs with
  | [] =>
    rw [redactGo_nil, List.nil_append]
    exact containsShape_of_inert t ht
  | c :: cs' =>
    by_cases h1 : matchesTokenAt (c :: cs') = true
    · rw [redactGo_cons_pos c cs' h1, List.append_assoc, containsShape_redacted_append]
      exact redact_no_shape (cs'.drop 68) t ht
    · have h1' : matchesTokenAt (c :: cs') = false := by simpa using h1
      have hq := matchesTokenAt_fails_redact (c :: cs') t ht h1'
      rw [redactGo_cons_neg c cs' h1', List.cons_append] at hq
      rw [redactGo_cons_neg c cs' h1', List.cons_append, containsShape_cons_of _ _ hq]
      exact redact_no_shape cs' t ht
termination_by cs.length
decreasing_by
  all_goals simp [List.length_drop]
  omega

end Reen

namespace Reen

theorem containsShape_tag_append (X : List Char) :
    containsShape ("[reen-mcp] ".data ++ X) = containsShape X := by
  have h1 : matchesTokenAt ('r' :: 'e' :: 'e' :: 'n' :: '-' :: 'm' :: 'c' :: 'p' :: ']' :: ' ' :: X) = false := by
    simp [matchesTokenAt, show (('-' : Char) == '_') = false from by decide]
  show containsShape
      ('[' :: 'r' :: 'e' :: 'e' :: 'n' :: '-' :: 'm' :: 'c' :: 'p' :: ']' :: ' ' :: X) =
    containsShape X
  rw [containsShape_cons_ne '[' _ (by decide), containsShape_cons_of _ _ h1,
      containsShape_cons_ne 'e' _ (by decide), containsShape_cons_ne 'e' _ (by decide),
      containsShape_cons_ne 'n' _ (by decide), containsShape_cons_ne '-' _ (by decide),
      containsShape_cons_ne 'm' _ (by decide), containsShape_cons_ne 'c' _ (by decide),
      containsShape_cons_ne 'p' _ (by decide), containsShape_cons_ne ']' _ (by decide),
      containsShape_cons_ne ' ' _ (by decide)]

/-- Claim C4 (amended): for every message passed to `log`, the written line
contains no substring of the credential shape `reen_` + 64 lowercase-hex
characters at any position — every such substring of the message was replaced
by `reen_***REDACTED***` before writing, and neither the `[reen-mcp] ` tag,
the replacements, nor the final newline can reassemble one. -/
theorem log_never_contains_credential_shape (msg : String) :
    containsShapeStr (logLine msg) = false := by
  have hdata : (logLine msg).data = "[reen-mcp] ".data ++ (redactGo msg.data ++ ['\n']) := by
    show ("[reen-mcp] " ++ redact msg ++ "\n").data = _
    rw [str_data_append, str_data_append, List.append_assoc]
    rfl
  show containsShape (logLine msg).data = false
  rw [hdata, containsShape_tag_append]
  exact redact_no_shape msg.data ['\n'] (by decide)

/-- On a message containing no shape match, the redaction is the identity. -/
theorem redactGo_of_no_shape (cs : List Char) (h : containsShape cs = false) :
    redactGo cs = cs := by
  match cs with
  | [] => exact redactGo_nil
  | c :: cs' =>
    have hsplit := Bool.or_eq_false_iff.mp
      (show (matchesTokenAt (c :: cs') || containsShape cs') = false from h)
    rw [redactGo_cons_neg c cs' hsplit.1, redactGo_of_no_shape cs' hsplit.2]

/-- Claim C4 counterexample: a stored credential that does *not* match the
shape `reen_[a-f0-9]{64}` (here `"xyz"`) passes through `log` unredacted:
the written line contains it verbatim. -/
theorem log_unshaped_credential_counterexample :
    (mkClient { baseUrl := some "https://h", token := "xyz" }).token = "xyz" ∧
      strIncludes (logLine "token=xyz") "xyz" = true := by
  refine ⟨rfl, ?_⟩
  have h1 : redact "token=xyz" = "token=xyz" := by
    show String.mk (redactGo "token=xyz".data) = "token=xyz"
    rw [redactGo_of_no_shape _ (by decide)]
  show strIncludes ("[reen-mcp] " ++ redact "token=xyz" ++ "\n") "xyz" = true
  rw [h1]
  decide

end Reen
